import Mathlib

/-!
Verification development for the FLOSS pony-swarm RSA core
(`desktop_pony_swarm/core/{swarm,embedding,adaptive_params,pony_agent}.py`
and `embedding_frames_of_scale.py`), as a shallow embedding in Lean 4.

Strings are modelled as Lean `String` / `List Char`; Python ints as `Int`
or `Nat`; numpy vectors as `List ℚ` (exact arithmetic); raised exceptions
as `Except String`; the injected generation/embedding backends and the
randomness seam as explicit function parameters.
-/

namespace FLOSS

/-! ### Character / string primitives (Python `str` helpers) -/

/-- Python ASCII whitespace, as used by `str.split()` and `\s`. -/
def isSpaceChar (c : Char) : Bool :=
  c == ' ' || c == '\t' || c == '\n' || c == '\x0d' || c == '\x0b' || c == '\x0c'

/-- ASCII word character, Python regex `\w` on ASCII text. -/
def isWordChar (c : Char) : Bool := c.isAlphanum || c == '_'

/-- Sentence-terminating punctuation of the regex class `[.!?]`. -/
def isSentPunct (c : Char) : Bool := c == '.' || c == '!' || c == '?'

def lowerChars (l : List Char) : List Char := l.map Char.toLower

/-- Does `pat` occur at the head of `text`? -/
def startsWithChars : List Char → List Char → Bool
  | [], _ => true
  | _ :: _, [] => false
  | p :: ps, c :: cs => p == c && startsWithChars ps cs

/-- Substring containment on char lists (Python `pat in text` /
`re.search` for a literal pattern). -/
def containsSub (pat : List Char) : List Char → Bool
  | [] => pat.isEmpty
  | c :: rest => startsWithChars pat (c :: rest) || containsSub pat rest

/-- Number of maximal runs of characters satisfying `p`
(`inRun` = currently inside such a run). -/
def runCountAux (p : Char → Bool) : Bool → List Char → Nat
  | _, [] => 0
  | inRun, c :: rest =>
    if p c then (if inRun then 0 else 1) + runCountAux p true rest
    else runCountAux p false rest

def runCount (p : Char → Bool) (l : List Char) : Nat := runCountAux p false l

/-- `len(query.split())`: number of maximal non-whitespace runs. -/
def wordCount (l : List Char) : Nat := runCount (fun c => !(isSpaceChar c)) l

/-- `len(re.split(r"[.!?]+", query))`: one more than the number of maximal
runs of sentence punctuation. -/
def sentenceCount (l : List Char) : Nat := 1 + runCount isSentPunct l

/-! ### The two regex patterns of `ComplexityEstimator.MATH_KEYWORDS` -/

def isOpChar (c : Char) : Bool := c == '+' || c == '-' || c == '*' || c == '/'

/-- After the operator: `\s*\d`. -/
def afterOpSp : List Char → Bool
  | [] => false
  | c :: rest => if isSpaceChar c then afterOpSp rest else c.isDigit

/-- Expecting `\s*[+\-*/]\s*\d`. -/
def spacesThenOp : List Char → Bool
  | [] => false
  | c :: rest => if isSpaceChar c then spacesThenOp rest else isOpChar c && afterOpSp rest

/-- Right after at least one digit: finish `\d*\s*[+\-*/]\s*\d`. -/
def arithAfterDigit : List Char → Bool
  | [] => false
  | c :: rest => if c.isDigit then arithAfterDigit rest else spacesThenOp (c :: rest)

/-- `re.search(r"\d+\s*[+\-*/]\s*\d+", q)`. -/
def hasArith : List Char → Bool
  | [] => false
  | c :: rest => (c.isDigit && arithAfterDigit rest) || hasArith rest

/-- The rest of a digit run followed by a word boundary. -/
def digitRunOk : List Char → Bool
  | [] => true
  | c :: rest => if c.isDigit then digitRunOk rest else !(isWordChar c)

/-- Scan with a flag telling whether the previous character was a word
character. -/
def bareNumAux : Bool → List Char → Bool
  | _, [] => false
  | prevW, c :: rest =>
    (!prevW && c.isDigit && digitRunOk rest) || bareNumAux (isWordChar c) rest

/-- `re.search(r"\b\d+\b", q)`. -/
def hasBareNum (l : List Char) : Bool := bareNumAux false l

/-! ### `ComplexityEstimator` (adaptive_params.py) -/

/-- Plain-text members of `MATH_KEYWORDS` (the two regex members are
`hasArith` and `hasBareNum`). -/
def mathKeywords : List String :=
  ["calculate", "compute", "multiply", "divide", "add", "subtract",
   "sum", "difference", "product", "quotient", "equals", "solve"]

def reasoningKeywords : List String :=
  ["explain", "why", "how", "because", "therefore", "thus",
   "compare", "contrast", "analyze", "evaluate", "justify",
   "reason", "logic", "argument", "conclusion", "premise",
   "if", "then", "when", "would", "should", "could"]

def creativeKeywords : List String :=
  ["write", "create", "design", "imagine", "story", "narrative",
   "poem", "essay", "article", "describe", "invent", "compose",
   "generate", "brainstorm", "explore", "multiple approaches",
   "various ways", "different methods", "consider all"]

/-- Count of keyword patterns (case-insensitive search) matching `q`. -/
def kwMatchCount (kws : List String) (q : String) : Nat :=
  (kws.filter (fun kw => containsSub (lowerChars kw.data) (lowerChars q.data))).length

/-- `math_matches`: the 12 plain keywords plus the two regex patterns. -/
def mathMatchCount (q : String) : Nat :=
  kwMatchCount mathKeywords q
    + (if hasArith q.data then 1 else 0) + (if hasBareNum q.data then 1 else 0)

/-- `ComplexityEstimator.estimate_complexity`, transcribed statement by
statement (score arithmetic is integer-valued throughout in the source,
so `Int` replaces the Python float). -/
def estimate_complexity (query : String) : Int :=
  let char_count : Nat := query.data.length
  let word_count : Nat := wordCount query.data
  let sentence_count : Nat := sentenceCount query.data
  let score1 : Int :=
    if char_count < 50 then 5
    else if char_count < 150 then 20
    else if char_count < 300 then 40
    else 60
  let score2 : Int := score1 +
    (if word_count < 10 then 0
     else if word_count < 25 then 10
     else if word_count < 50 then 20
     else 30)
  let score3 : Int := score2 + (if sentence_count > 3 then 15 else 0)
  let math_matches : Nat := mathMatchCount query
  let reasoning_matches : Nat := kwMatchCount reasoningKeywords query
  let creative_matches : Nat := kwMatchCount creativeKeywords query
  let score4 : Int := score3 - (if math_matches > 0 then 10 else 0)
  let score5 : Int := score4 +
    (if reasoning_matches > 2 then 15
     else if reasoning_matches > 0 then 5
     else 0)
  let score6 : Int := score5 +
    (if creative_matches > 2 then 30
     else if creative_matches > 0 then 15
     else 0)
  max 0 (min 100 score6)

/-! ### `AdaptiveParameterSelector` (adaptive_params.py) -/

structure RSAParams where
  N : Nat
  K : Nat
  T : Nat
deriving DecidableEq, Repr

/-- `AdaptiveParameterSelector.DEFAULT_CONFIGS` (an insertion-ordered
Python dict, modelled as an association list). -/
def defaultConfigs : List (String × RSAParams) :=
  [("simple", ⟨2, 1, 2⟩), ("medium", ⟨4, 2, 3⟩), ("complex", ⟨6, 3, 4⟩)]

/-- Tier chosen from a complexity score with the default thresholds
(simple < 20 ≤ medium < 60 ≤ complex). -/
def selectLevel (score : Int) : String :=
  if score < 20 then "simple"
  else if score < 60 then "medium"
  else "complex"

/-- Python dict lookup on an insertion-ordered association list. -/
def alookup {κ α : Type} [DecidableEq κ] : List (κ × α) → κ → Option α
  | [], _ => none
  | (k, v) :: rest, key => if key = k then some v else alookup rest key

/-- Python dict assignment `d[k] = v`: replace in place when the key is
present, append otherwise. -/
def dictSet {κ α : Type} [DecidableEq κ] (l : List (κ × α)) (k : κ) (v : α) :
    List (κ × α) :=
  if (alookup l k).isSome then l.map (fun p => if p.1 = k then (k, v) else p)
  else l ++ [(k, v)]

/-- `AdaptiveParameterSelector.select_parameters` (with default
thresholds); the dict lookup `self.configs[config_level]` is total for
any configs containing the three default keys. -/
def select_parameters (configs : List (String × RSAParams)) (query : String) : RSAParams :=
  (alookup configs (selectLevel (estimate_complexity query))).getD ⟨4, 2, 3⟩

/-- `AdaptiveParameterSelector.update_config`: raises `ValueError` only
for an unknown level name, then stores the new params unconditionally. -/
def update_config (configs : List (String × RSAParams)) (level : String)
    (params : RSAParams) : Except String (List (String × RSAParams)) :=
  if (alookup configs level).isSome then .ok (dictSet configs level params)
  else .error ("Unknown complexity level: " ++ level)

/-! ### Decimal rendering of naturals (Python `str(i)` in f-strings)

Fuel-based structural recursion so that the kernel can evaluate it. -/

def digitChar (n : Nat) : Char := Char.ofNat (48 + n)

def natDigitsAux : Nat → Nat → List Char
  | 0, _ => []
  | fuel + 1, n => if n < 10 then [digitChar n] else natDigitsAux fuel (n / 10) ++ [digitChar (n % 10)]

def natDigits (n : Nat) : List Char := natDigitsAux (n + 1) n

def natStr (n : Nat) : String := ⟨natDigits n⟩

/-- Decimal value of a digit string, used to prove `natStr` injective. -/
def digitsVal (l : List Char) : Nat := l.foldl (fun a c => 10 * a + (c.toNat - 48)) 0

/-! ### `DesktopPonyAgent` (pony_agent.py) -/

/-- `check_crisis_indicators` keyword list. -/
def crisisKeywords : List String :=
  ["suicide", "kill myself", "end it all", "not worth living",
   "everyone better off without me", "can\x27t go on"]

/-- The `user_state` dict fields read by `check_crisis_indicators`. -/
structure UserState where
  recovery_status : Bool
  stress_level : Int
  anchor_reason : Option String
deriving DecidableEq

def defaultUserState : UserState := ⟨false, 0, none⟩

/-- `DesktopPonyAgent.check_crisis_indicators` for the pony `pony_id`. -/
def check_crisis_indicators (pony_id : String) (text : String) (us : UserState) :
    Option String :=
  if crisisKeywords.any (fun kw => containsSub kw.data (lowerChars text.data)) then
    some ("[CRISIS ALERT] " ++ pony_id ++
      " detected distress signals. Escalating to support network.")
  else if us.recovery_status && us.stress_level > 8 then
    some ("[WELLBEING] " ++ pony_id ++ " noticed high stress. Reminder: " ++
      us.anchor_reason.getD "You matter.")
  else none

/-- The personality wrapper `generate_response` builds around the user
prompt before calling the backend. -/
def personaPrompt (pony_name role prompt : String) : String :=
  "You are " ++ pony_name ++ ", a helpful desktop assistant.\nYour role: " ++ role ++
  "\nBe helpful, honest, and concise.\n\nUser query:\n" ++ prompt ++ "\n\nYour response:"

/-- `add_to_context`: append, then keep only the last
`max_context_size = 100` entries (`self.context_buffer[-100:]`).
Entries are (prompt, response); the timestamp is not modelled. -/
def add_to_context (buf : List (String × String)) (e : String × String) :
    List (String × String) :=
  let b := buf ++ [e]
  if b.length > 100 then b.drop (b.length - 100) else b

/-- `DesktopPonyAgent.generate_response`.  The backend
(`horde_client.generate_text`) is a fallible capability: `.error e`
models a raised exception (including a timeout).  The agent catches every
exception and returns an in-band error string instead, so the model is a
total function returning the response text and the updated context
buffer. -/
def generate_response (pony_name role : String)
    (backend : String → Except String String) (prompt : String)
    (buf : List (String × String)) : String × List (String × String) :=
  match backend (personaPrompt pony_name role prompt) with
  | .ok response => (response.trim, add_to_context buf (prompt, response))
  | .error e =>
    ("[Error] " ++ pony_name ++ " couldn\x27t generate response: " ++ e, buf)

/-! ### Aggregation prompt templates (`PonySwarm._build_aggregation_prompt`) -/

def selfRefinePrefix : String :=
  "You are given a problem and a candidate solution.\nThe candidate may be incomplete or contain errors.\nRefine this solution and produce an improved, higher-quality response.\nIf it is entirely wrong, attempt a new strategy.\n\nProblem:\n"

def aggregationPrefix : String :=
  "You are given a problem and several candidate solutions.\nSome candidates may be incorrect or contain errors.\nAggregate the useful ideas and produce a single, high-quality solution.\nReason carefully; if candidates disagree, choose the correct path.\nIf all are incorrect, attempt a different strategy.\n\nProblem:\n"

/-- `_build_aggregation_prompt(query, candidates, K)`: the K=1
self-refinement template reads `candidates[0]`; the K>1 template labels
the candidates `---- Solution i ----`. -/
def build_aggregation_prompt (query : String) (candidates : List String) (K : Nat) : String :=
  if K = 1 then
    selfRefinePrefix ++ query ++ "\n\nCandidate solution:\n" ++ candidates.headD "" ++
      "\n\nNow refine the candidate into an improved solution with clear reasoning:"
  else
    let candidates_text := String.intercalate "\n\n"
      (candidates.enum.map (fun p =>
        "---- Solution " ++ natStr (p.1 + 1) ++ " ----\n" ++ p.2))
    aggregationPrefix ++ query ++ "\n\nCandidate solutions:\n" ++ candidates_text ++
      "\n\nNow write a single improved solution with clear reasoning:"

/-! ### `MultiScaleEmbedding` (embedding_frames_of_scale.py)

Vectors are `List ℚ` (numpy 1-D float arrays, in exact arithmetic);
embedding metadata is not modelled (no claim reads it).  Raised
exceptions (`ValueError`/`KeyError`) are `Except.error`. -/

abbrev Vec := List ℚ

def vecAdd (u v : Vec) : Vec := List.zipWith (· + ·) u v

/-- Elementwise sum of a nonempty family (`np.sum(vectors, axis=0)`). -/
def vecSum : List Vec → Vec
  | [] => []
  | v :: rest => rest.foldl vecAdd v

/-- `MultiScaleEmbedding._default_aggregator`: `ValueError` on an empty
family; `np.sum(vectors, axis=0)` additionally needs all shapes equal
(numpy raises otherwise). -/
def default_aggregator (vs : List Vec) : Except String Vec :=
  match vs with
  | [] => .error "No vectors provided for aggregation"
  | v :: rest =>
    if rest.all (fun w => w.length == v.length) then .ok (rest.foldl vecAdd v)
    else .error "operands could not be broadcast together"

structure MSE where
  levels : List (String × List (String × Vec))
deriving DecidableEq

def MSE.empty : MSE := ⟨[]⟩

/-- `MultiScaleEmbedding.add_embedding`: creates the level on demand and
raises `ValueError` on a duplicate embedding ID (never overwrites). -/
def MSE.add_embedding (m : MSE) (level embedding_id : String) (vector : Vec) :
    Except String MSE :=
  let lvl := (alookup m.levels level).getD []
  if (alookup lvl embedding_id).isSome then
    .error ("Embedding ID " ++ embedding_id ++ " already exists in level " ++ level)
  else .ok ⟨dictSet m.levels level (lvl ++ [(embedding_id, vector)])⟩

/-- `MultiScaleEmbedding.get_embedding`; `KeyError` becomes `none`. -/
def MSE.get_embedding (m : MSE) (level embedding_id : String) : Option Vec :=
  (alookup m.levels level).bind (fun lvl => alookup lvl embedding_id)

/-- The vector-collecting inner loop of `add_coarse_level`: look up each
fine ID in order, `KeyError` on the first missing one. -/
def collectFine (fineL : List (String × Vec)) (fine_level : String) :
    List String → List Vec → Except String (List Vec)
  | [], acc => .ok acc
  | fid :: fids, acc =>
    match alookup fineL fid with
    | some v => collectFine fineL fine_level fids (acc ++ [v])
    | none => .error ("Fine embedding ID " ++ fid ++ " not found in level " ++ fine_level)

/-- The per-coarse-ID loop of `add_coarse_level`: collect, aggregate,
store under the coarse ID. -/
def groupFold (fineL : List (String × Vec)) (fine_level : String) :
    List (String × List String) → List (String × Vec) →
    Except String (List (String × Vec))
  | [], acc => .ok acc
  | g :: gs, acc =>
    match collectFine fineL fine_level g.2 [] with
    | .error e => .error e
    | .ok vecs =>
      match default_aggregator vecs with
      | .error e => .error e
      | .ok cv => groupFold fineL fine_level gs (dictSet acc g.1 cv)

/-- `MultiScaleEmbedding.add_coarse_level` with the default (sum)
aggregator. -/
def MSE.add_coarse_level (m : MSE) (coarse_level fine_level : String)
    (grouping : List (String × List String)) : Except String MSE :=
  if (alookup m.levels fine_level).isNone then
    .error ("Fine level " ++ fine_level ++ " does not exist")
  else if (alookup m.levels coarse_level).isSome then
    .error ("Coarse level " ++ coarse_level ++ " already exists")
  else
    match groupFold ((alookup m.levels fine_level).getD []) fine_level grouping [] with
    | .error e => .error e
    | .ok coarseMap => .ok ⟨dictSet m.levels coarse_level coarseMap⟩

/-! ### `SwarmEmbeddingManager` (embedding.py) -/

structure HistEntry where
  pony_id : String
  embedding_id : String
  response : String
deriving DecidableEq

structure Mgr where
  embeddings : MSE
  iteration_history : List (Nat × List HistEntry)
deriving DecidableEq

def Mgr.empty : Mgr := ⟨MSE.empty, []⟩

/-- The fine-level key `f"{pony_id}_t{iteration}"`. -/
def fineId (pony_id : String) (iteration : Nat) : String :=
  pony_id ++ "_t" ++ natStr iteration

/-- The community-level key `f"community_t{iteration}"`. -/
def communityId (iteration : Nat) : String := "community_t" ++ natStr iteration

/-- `SwarmEmbeddingManager.add_pony_response`: store at the fine level
and append to the per-iteration history. -/
def Mgr.add_pony_response (m : Mgr) (pony_id : String) (iteration : Nat)
    (response : String) (vector : Vec) : Except String Mgr :=
  match m.embeddings.add_embedding "fine" (fineId pony_id iteration) vector with
  | .error e => .error e
  | .ok mse =>
    .ok ⟨mse, dictSet m.iteration_history iteration
      ((alookup m.iteration_history iteration).getD [] ++
        [⟨pony_id, fineId pony_id iteration, response⟩])⟩

/-- `SwarmEmbeddingManager.aggregate_to_community`.  First ever
aggregation creates the `community` level via `add_coarse_level`; later
rounds collect the found fine vectors (skipping missing ones), and if
any were found, store their `np.sum` under the community key by direct
dict assignment.  The second branch's sum coincides with the default
aggregator on its (nonempty) vector list. -/
def Mgr.aggregate_to_community (m : Mgr) (iteration : Nat) (pony_ids : List String) :
    Except String Mgr :=
  let community_id := communityId iteration
  if (alookup m.embeddings.levels "community").isNone then
    match m.embeddings.add_coarse_level "community" "fine"
        [(community_id, pony_ids.map (fun pid => fineId pid iteration))] with
    | .ok mse => .ok ⟨mse, m.iteration_history⟩
    | .error e => .error e
  else
    let fine_ids := pony_ids.map (fun pid => fineId pid iteration)
    let vectors := fine_ids.filterMap (fun fid => m.embeddings.get_embedding "fine" fid)
    if vectors.isEmpty then .ok m
    else
      match default_aggregator vectors with
      | .ok cv =>
        let comm := (alookup m.embeddings.levels "community").getD []
        .ok ⟨⟨dictSet m.embeddings.levels "community" (dictSet comm community_id cv)⟩,
          m.iteration_history⟩
      | .error e => .error e

/-! ### Diversity metric (embedding.py `get_diversity_metric`)

The float math is modelled over ℝ: `np.linalg.norm` is the Euclidean
norm, and normalising both vectors by `(norm + 1e-10)` before the dot
product equals dividing the exact dot product by the product of the two
guarded norms. -/

def sumSqQ (v : Vec) : ℚ := (v.map (fun x => x * x)).sum

def dotQ (u v : Vec) : ℚ := (List.zipWith (· * ·) u v).sum

/-- `np.linalg.norm(v) + 1e-10`. -/
noncomputable def normEps (v : Vec) : ℝ := Real.sqrt ((sumSqQ v : ℝ)) + 1 / 10 ^ 10

/-- Cosine distance of the epsilon-normalised vectors:
`1 - dot(u/(|u|+eps), v/(|v|+eps))`. -/
noncomputable def cosDist (u v : Vec) : ℝ :=
  1 - (dotQ u v : ℝ) / (normEps u * normEps v)

/-- All ordered pairs `(i, j)` with `i < j` of the double loop, as a
list of distances. -/
noncomputable def pairDists : List Vec → List ℝ
  | [] => []
  | v :: rest => rest.map (cosDist v) ++ pairDists rest

/-- The fine vectors recorded for an iteration: history entries with a
resolvable embedding ID (`KeyError` entries are skipped); an iteration
absent from the history yields `[]` (the code returns 0 directly). -/
def Mgr.roundVectors (m : Mgr) (iteration : Nat) : List Vec :=
  match alookup m.iteration_history iteration with
  | none => []
  | some entries => entries.filterMap (fun e => m.embeddings.get_embedding "fine" e.embedding_id)

/-- `SwarmEmbeddingManager.get_diversity_metric`. -/
noncomputable def Mgr.get_diversity_metric (m : Mgr) (iteration : Nat) : ℝ :=
  let embeddings := m.roundVectors iteration
  if embeddings.length < 2 then 0
  else
    let pd := pairDists embeddings
    if 0 < pd.length then pd.sum / (pd.length : ℝ) else 0

/-! ### `PonySwarm` orchestrator (swarm.py)

The two capabilities and the randomness seams are injected:
`gen i prompt` models `self.ponies[i].generate_response(prompt)` (total:
the agent converts capability failures into in-band `[Error]` strings),
`emb i text` models `self.ponies[i].generate_embedding(text)`,
`sample t i` models the outcome of `random.sample(range(N), K)` for slot
`i` of round `t` (`random.sample` itself raises `ValueError` iff `K > N`,
and otherwise returns K distinct indices below N), and `choose` seeds the
final `random.choice`. -/

structure SwarmCfg where
  num_ponies : Nat
  gen : Nat → String → String
  emb : Nat → String → Vec
  sample : Nat → Nat → List Nat
  choose : Nat

/-- `f"pony_{i}"`. -/
def ponyId (i : Nat) : String := "pony_" ++ natStr i

/-- `PonySwarm._check_all_ponies_for_crisis`: first alert in pony order
wins. -/
def check_all_ponies_for_crisis (N : Nat) (query : String) (us : UserState) :
    Option String :=
  (List.range N).findSome? (fun i => check_crisis_indicators (ponyId i) query us)

structure IterationRecord where
  iteration : Nat
  population : List String
  diversity : ℝ

structure RSAResult where
  response : String
  is_crisis : Bool
  iterations : List IterationRecord
  final_population : List String
  total_generations : Nat

/-- The crisis short-circuit dict `{response, is_crisis: True,
iterations: []}` (it carries no population or metrics; `[]`/0 stand in
for the absent keys). -/
def crisisResult (alert : String) : RSAResult := ⟨alert, true, [], [], 0⟩

/-- The per-round store loop: `add_pony_response` for each
(slot index, response, embedding) triple in slot order; the first
`ValueError` aborts the whole call. -/
def storeRound (t : Nat) : List (Nat × String × Vec) → Mgr → Except String Mgr
  | [], m => .ok m
  | e :: es, m =>
    match m.add_pony_response (ponyId e.1) t e.2.1 e.2.2 with
    | .error err => .error err
    | .ok m' => storeRound t es m'

/-- Round-1 fan-out: `pony.generate_response(query)` for each pony in
slot order. -/
def initialPopulation (cfg : SwarmCfg) (query : String) : List String :=
  (List.range cfg.num_ponies).map (fun i => cfg.gen i query)

/-- Embedding fan-out: `ponies[i].generate_embedding(texts[i])`. -/
def embAll (cfg : SwarmCfg) (texts : List String) : List Vec :=
  (List.range cfg.num_ponies).map (fun i => cfg.emb i (texts.getD i ""))

/-- Per-slot aggregation prompts for round `t`: each slot draws its own
sampled subset of population slot indices. -/
def roundPrompts (cfg : SwarmCfg) (query : String) (K t : Nat) (pop : List String) :
    List String :=
  (List.range cfg.num_ponies).map (fun i =>
    build_aggregation_prompt query ((cfg.sample t i).map (fun idx => pop.getD idx "")) K)

/-- Generation fan-out on per-slot prompts. -/
def genAll (cfg : SwarmCfg) (prompts : List String) : List String :=
  (List.range cfg.num_ponies).map (fun i => cfg.gen i (prompts.getD i ""))

/-- One aggregation round `t ≥ 2` of `recursive_self_aggregation` over
the state (population, manager, history).  `random.sample(range(N), K)`
raises iff `K > N`; a valid sample only contains indices below N, so the
`getD` default is never read in a run satisfying the sampler contract. -/
noncomputable def rsaRound (cfg : SwarmCfg) (query : String) (K : Nat)
    (st : List String × Mgr × List IterationRecord) (t : Nat) :
    Except String (List String × Mgr × List IterationRecord) :=
  if K > cfg.num_ponies then .error "Sample larger than population or is negative"
  else
    let new_population := genAll cfg (roundPrompts cfg query K t st.1)
    let embs := embAll cfg new_population
    match storeRound t ((List.range cfg.num_ponies).map
        (fun i => (i, new_population.getD i "", embs.getD i []))) st.2.1 with
    | .error e => .error e
    | .ok m =>
      match m.aggregate_to_community t ((List.range cfg.num_ponies).map ponyId) with
      | .error e => .error e
      | .ok m' =>
        .ok (new_population, m',
          st.2.2 ++ [⟨t, new_population, m'.get_diversity_metric t⟩])

/-- Rounds 2..T in order; the state threads through. -/
noncomputable def runRounds (cfg : SwarmCfg) (query : String) (K : Nat) :
    List Nat → (List String × Mgr × List IterationRecord) →
    Except String (List String × Mgr × List IterationRecord)
  | [], st => .ok st
  | t :: ts, st =>
    match rsaRound cfg query K st t with
    | .error e => .error e
    | .ok st' => runRounds cfg query K ts st'

/-- `PonySwarm.recursive_self_aggregation` with resolved parameters
K, T (the adaptive resolution is `select_parameters`, settled
separately).  Returns the result dict together with the manager state
(`self.embedding_manager` persists on the instance across calls). -/
noncomputable def rsa (cfg : SwarmCfg) (mgr : Mgr) (us : UserState) (query : String)
    (K T : Nat) : Except String (RSAResult × Mgr) :=
  match check_all_ponies_for_crisis cfg.num_ponies query us with
  | some alert => .ok (crisisResult alert, mgr)
  | none =>
    let responses := initialPopulation cfg query
    let embeddings := embAll cfg responses
    match storeRound 1 ((List.range cfg.num_ponies).map
        (fun i => (i, responses.getD i "", embeddings.getD i []))) mgr with
    | .error e => .error e
    | .ok m1 =>
      match m1.aggregate_to_community 1 ((List.range cfg.num_ponies).map ponyId) with
      | .error e => .error e
      | .ok m2 =>
        match runRounds cfg query K (List.range' 2 (T - 1))
            (responses, m2, [⟨1, responses, m2.get_diversity_metric 1⟩]) with
        | .error e => .error e
        | .ok fin =>
          .ok (⟨fin.1.getD (cfg.choose % cfg.num_ponies) "", false, fin.2.2, fin.1,
            cfg.num_ponies * T⟩, fin.2.1)

structure SingleStepResult where
  response : String
  is_crisis : Bool
  candidates : List String
  method : String

/-- `PonySwarm.single_step_aggregation`: K round-robin generations, one
aggregation generation by pony 0, no crisis check, no manager access. -/
def single_step_aggregation (cfg : SwarmCfg) (query : String) (K : Nat) :
    SingleStepResult :=
  let candidates := (List.range K).map (fun i => cfg.gen (i % cfg.num_ponies) query)
  let agg_prompt := build_aggregation_prompt query candidates K
  ⟨cfg.gen 0 agg_prompt, false, candidates, "single_step_aggregation"⟩

/-! ### Spec-side restatement of the complexity scoring (for C7)

Each bullet of spec §4.3, as an independent additive component with a
final clamp.  "Sentence count" is the number of `[.!?]+`-separated
segments, the only reading the source gives the spec's undefined term. -/

def spec_lengthScore (q : String) : Int :=
  if q.data.length < 50 then 5
  else if q.data.length < 150 then 20
  else if q.data.length < 300 then 40
  else 60

def spec_wordScore (q : String) : Int :=
  if wordCount q.data < 10 then 0
  else if wordCount q.data < 25 then 10
  else if wordCount q.data < 50 then 20
  else 30

def spec_sentenceBonus (q : String) : Int :=
  if sentenceCount q.data > 3 then 15 else 0

def spec_mathAdjust (q : String) : Int :=
  if mathMatchCount q > 0 then -10 else 0

def spec_reasoningBonus (q : String) : Int :=
  if kwMatchCount reasoningKeywords q > 2 then 15
  else if kwMatchCount reasoningKeywords q > 0 then 5
  else 0

def spec_creativeBonus (q : String) : Int :=
  if kwMatchCount creativeKeywords q > 2 then 30
  else if kwMatchCount creativeKeywords q > 0 then 15
  else 0

/-- The spec's rule list: sum the seven adjustments, clamp to [0,100]. -/
def spec_estimate_complexity (q : String) : Int :=
  max 0 (min 100 (spec_lengthScore q + spec_wordScore q + spec_sentenceBonus q +
    spec_mathAdjust q + spec_reasoningBonus q + spec_creativeBonus q))

/-! ### Concrete fixtures used by witnesses and counterexamples -/

def trivialBackend : Nat → String → String := fun _ _ => "ok"

def unitEmb : Nat → String → Vec := fun _ _ => [1]

/-- A 1-pony swarm with deterministic mock capabilities. -/
def cfgW1 : SwarmCfg := ⟨1, trivialBackend, unitEmb, fun _ _ => [0], 0⟩

/-- A 2-pony swarm with deterministic mock capabilities. -/
def cfgW2 : SwarmCfg := ⟨2, trivialBackend, unitEmb, fun _ _ => [0, 1], 0⟩

/-- A manager state holding two antipodal unit vectors for round 1. -/
def mgrC4 : Mgr :=
  ⟨⟨[("fine", [("a_t1", [1, 0]), ("b_t1", [-1, 0])])]⟩,
   [(1, [⟨"a", "a_t1", "ra"⟩, ⟨"b", "b_t1", "rb"⟩])]⟩

/-- Every stored fine-level vector has dimension `Dd` (spec §3: all fine
vectors share dimension D). -/
def FineInv (m : Mgr) (Dd : Nat) : Prop :=
  ∀ id v, m.embeddings.get_embedding "fine" id = some v → v.length = Dd

/-! ## Theorems -/

/-! ### Decimal strings: digits, value, injectivity -/

theorem digitChar_toNat (n : Nat) (h : n < 10) : (digitChar n).toNat = 48 + n := by
  interval_cases n <;> decide

theorem natDigitsAux_digits (fuel : Nat) :
    ∀ n, n < fuel → ∀ c ∈ natDigitsAux fuel n, 48 ≤ c.toNat ∧ c.toNat ≤ 57 := by
  induction fuel with
  | zero => omega
  | succ f ih =>
    intro n hn c hc
    unfold natDigitsAux at hc
    by_cases h10 : n < 10
    · simp only [if_pos h10, List.mem_singleton] at hc
      subst hc
      rw [digitChar_toNat n h10]
      omega
    · simp only [if_neg h10, List.mem_append, List.mem_singleton] at hc
      rcases hc with hc | hc
      · exact ih (n / 10) (by omega) c hc
      · subst hc
        rw [digitChar_toNat (n % 10) (by omega)]
        omega

theorem natDigits_digits (n : Nat) : ∀ c ∈ natDigits n, 48 ≤ c.toNat ∧ c.toNat ≤ 57 :=
  natDigitsAux_digits (n + 1) n (by omega)

theorem digitsVal_append_singleton (l : List Char) (c : Char) :
    digitsVal (l ++ [c]) = 10 * digitsVal l + (c.toNat - 48) := by
  simp [digitsVal, List.foldl_append]

theorem digitsVal_natDigitsAux (fuel : Nat) :
    ∀ n, n < fuel → digitsVal (natDigitsAux fuel n) = n := by
  induction fuel with
  | zero => omega
  | succ f ih =>
    intro n hn
    unfold natDigitsAux
    by_cases h10 : n < 10
    · rw [if_pos h10]
      simp only [digitsVal, List.foldl_cons, List.foldl_nil, digitChar_toNat n h10]
      omega
    · rw [if_neg h10, digitsVal_append_singleton, ih (n / 10) (by omega),
        digitChar_toNat (n % 10) (by omega)]
      omega

theorem natDigits_inj {m n : Nat} (h : natDigits m = natDigits n) : m = n := by
  have hm := digitsVal_natDigitsAux (m + 1) m (by omega)
  have hn := digitsVal_natDigitsAux (n + 1) n (by omega)
  unfold natDigits at h
  rw [h] at hm
  omega

theorem natStr_inj {m n : Nat} (h : natStr m = natStr n) : m = n :=
  natDigits_inj (congrArg String.data h)

theorem mark_not_in_natDigits (n : Nat) : '_' ∉ natDigits n := by
  intro hmem
  exact absurd (natDigits_digits n '_' hmem) (by decide)

/-! ### Splitting concatenations at a marker character -/

theorem split_at_mark :
    ∀ (a c b d : List Char), '_' ∉ a → '_' ∉ c →
      a ++ '_' :: b = c ++ '_' :: d → a = c ∧ b = d := by
  intro a
  induction a with
  | nil =>
    intro c b d _ hc h
    cases c with
    | nil => simpa using h
    | cons y ys =>
      simp only [List.nil_append, List.cons_append, List.cons.injEq] at h
      exact absurd (by simp [← h.1]) hc
  | cons x xs ih =>
    intro c b d ha hc h
    cases c with
    | nil =>
      simp only [List.cons_append, List.nil_append, List.cons.injEq] at h
      exact absurd (by simp [h.1]) ha
    | cons y ys =>
      simp only [List.cons_append, List.cons.injEq] at h
      obtain ⟨hxy, htail⟩ := h
      have hxs : '_' ∉ xs := fun hx => ha (by simp [hx])
      have hys : '_' ∉ ys := fun hy => hc (by simp [hy])
      obtain ⟨h1, h2⟩ := ih ys b d hxs hys htail
      exact ⟨by simp [hxy, h1], h2⟩

theorem string_data_append (a b : String) : (a ++ b).data = a.data ++ b.data := rfl

theorem fineId_data (pid : String) (t : Nat) :
    (fineId pid t).data = pid.data ++ '_' :: 't' :: natDigits t := by
  show ((pid ++ "_t") ++ natStr t).data = _
  rw [string_data_append, string_data_append]
  show (pid.data ++ ['_', 't']) ++ natDigits t = _
  simp

theorem ponyId_data (i : Nat) :
    (ponyId i).data = 'p' :: 'o' :: 'n' :: 'y' :: '_' :: natDigits i := by
  show ("pony_" ++ natStr i).data = _
  rw [string_data_append]
  rfl

theorem fineId_ponyId_inj {i j t s : Nat}
    (h : fineId (ponyId i) t = fineId (ponyId j) s) : i = j ∧ t = s := by
  have hd := congrArg String.data h
  rw [fineId_data, fineId_data, ponyId_data, ponyId_data] at hd
  simp only [List.cons_append, List.cons.injEq, true_and] at hd
  have h1 := split_at_mark (natDigits i) (natDigits j) ('t' :: natDigits t)
    ('t' :: natDigits s) (mark_not_in_natDigits i) (mark_not_in_natDigits j) (by simpa using hd)
  refine ⟨natDigits_inj h1.1, natDigits_inj ?_⟩
  have := h1.2
  simpa using this

theorem fineId_ponyId_ne {i j t s : Nat} (h : ¬(i = j ∧ t = s)) :
    fineId (ponyId i) t ≠ fineId (ponyId j) s :=
  fun heq => h (fineId_ponyId_inj heq)

/-! ### Association-list lemmas -/

theorem alookup_append {κ α : Type} [DecidableEq κ] (l₁ l₂ : List (κ × α)) (k : κ) :
    alookup (l₁ ++ l₂) k = ((alookup l₁ k).or (alookup l₂ k)) := by
  induction l₁ with
  | nil => simp [alookup]
  | cons p rest ih =>
    obtain ⟨k', v'⟩ := p
    by_cases h : k = k' <;> simp [alookup, h, ih]

theorem alookup_replace_self {κ α : Type} [DecidableEq κ] (l : List (κ × α)) (k : κ) (v : α)
    (h : (alookup l k).isSome) :
    alookup (l.map (fun p => if p.1 = k then (k, v) else p)) k = some v := by
  induction l with
  | nil => simp [alookup] at h
  | cons p rest ih =>
    obtain ⟨k₀, v₀⟩ := p
    rw [List.map_cons]
    by_cases hk : k₀ = k
    · rw [if_pos (show (k₀, v₀).1 = k from hk)]
      simp [alookup]
    · rw [if_neg (show ¬((k₀, v₀).1 = k) from hk)]
      have hk' : ¬(k = k₀) := fun hh => hk hh.symm
      rw [alookup, if_neg hk']
      rw [alookup, if_neg hk'] at h
      exact ih h

theorem alookup_replace_ne {κ α : Type} [DecidableEq κ] (l : List (κ × α)) (k k' : κ) (v : α)
    (hne : k' ≠ k) :
    alookup (l.map (fun p => if p.1 = k then (k, v) else p)) k' = alookup l k' := by
  induction l with
  | nil => simp
  | cons p rest ih =>
    obtain ⟨k₀, v₀⟩ := p
    rw [List.map_cons]
    by_cases hk : k₀ = k
    · rw [if_pos (show (k₀, v₀).1 = k from hk)]
      rw [alookup, if_neg hne, alookup, if_neg (show ¬(k' = k₀) from hk ▸ hne)]
      exact ih
    · rw [if_neg (show ¬((k₀, v₀).1 = k) from hk)]
      by_cases hkk : k' = k₀
      · rw [alookup, if_pos hkk, alookup, if_pos hkk]
      · rw [alookup, if_neg hkk, alookup, if_neg hkk]
        exact ih

theorem alookup_dictSet_self {κ α : Type} [DecidableEq κ] (l : List (κ × α)) (k : κ) (v : α) :
    alookup (dictSet l k v) k = some v := by
  unfold dictSet
  by_cases h : (alookup l k).isSome
  · rw [if_pos h]
    exact alookup_replace_self l k v h
  · rw [if_neg h, alookup_append]
    simp only [Option.not_isSome_iff_eq_none] at h
    simp [h, alookup]

theorem alookup_dictSet_ne {κ α : Type} [DecidableEq κ] (l : List (κ × α)) (k k' : κ) (v : α)
    (hne : k' ≠ k) : alookup (dictSet l k v) k' = alookup l k' := by
  unfold dictSet
  by_cases h : (alookup l k).isSome
  · rw [if_pos h]
    exact alookup_replace_ne l k k' v hne
  · rw [if_neg h, alookup_append]
    cases hres : alookup l k' with
    | some v' => simp [hres]
    | none => simp [hres, alookup, hne]

theorem startsWithChars_self_append (p r : List Char) : startsWithChars p (p ++ r) = true := by
  induction p with
  | nil => rfl
  | cons c cs ih => simp [startsWithChars, ih]

/-- First-success characterisation of `findSome?` over `range'`. -/
theorem findSome?_range'_first {α : Type} :
    ∀ (n s : Nat) (f : Nat → Option α) (a : α),
      (List.range' s n).findSome? f = some a →
      ∃ i, s ≤ i ∧ i < s + n ∧ f i = some a ∧ ∀ j, s ≤ j → j < i → f j = none := by
  intro n
  induction n with
  | zero =>
    intro s f a h
    simp [List.range'] at h
  | succ m ih =>
    intro s f a h
    rw [show List.range' s (m + 1) = s :: List.range' (s + 1) m from rfl] at h
    cases hfs : f s with
    | some b =>
      simp only [List.findSome?_cons, hfs] at h
      exact ⟨s, le_refl s, by omega, by simp [hfs, h], fun j hj hj' => by omega⟩
    | none =>
      simp only [List.findSome?_cons, hfs] at h
      obtain ⟨i, h1, h2, h3, h4⟩ := ih (s + 1) f a h
      refine ⟨i, by omega, by omega, h3, fun j hj hj' => ?_⟩
      by_cases hjs : j = s
      · rw [hjs, hfs]
      · exact h4 j (by omega) hj'

/-! ### Vector-sum lemmas -/

theorem vecAdd_length (u v : Vec) : (vecAdd u v).length = min u.length v.length := by
  simp [vecAdd]

theorem vecAdd_getD : ∀ (u v : Vec) (n : Nat), n < u.length → u.length = v.length →
    (vecAdd u v).getD n 0 = u.getD n 0 + v.getD n 0 := by
  intro u
  induction u with
  | nil => intro v n h _; simp at h
  | cons a u' ih =>
    intro v n h hlen
    cases v with
    | nil => simp at hlen
    | cons b v' =>
      cases n with
      | zero => simp [vecAdd]
      | succ k =>
        simp only [vecAdd, List.zipWith_cons_cons, List.getD_cons_succ]
        exact ih v' k (by simpa using h) (by simpa using hlen)

theorem foldl_vecAdd_length : ∀ (vs : List Vec) (acc : Vec),
    (∀ w ∈ vs, w.length = acc.length) → (vs.foldl vecAdd acc).length = acc.length := by
  intro vs
  induction vs with
  | nil => intro acc _; rfl
  | cons w ws ih =>
    intro acc h
    rw [List.foldl_cons]
    have hw : w.length = acc.length := h w (by simp)
    have hlen : (vecAdd acc w).length = acc.length := by
      rw [vecAdd_length]; omega
    refine (ih (vecAdd acc w) ?_).trans hlen
    intro w' hw'
    rw [hlen]
    exact h w' (by simp [hw'])

theorem foldl_vecAdd_getD : ∀ (vs : List Vec) (acc : Vec) (n : Nat), n < acc.length →
    (∀ w ∈ vs, w.length = acc.length) →
    (vs.foldl vecAdd acc).getD n 0 = acc.getD n 0 + (vs.map (fun w => w.getD n 0)).sum := by
  intro vs
  induction vs with
  | nil => intro acc n _ _; simp
  | cons w ws ih =>
    intro acc n hn h
    rw [List.foldl_cons, List.map_cons, List.sum_cons]
    have hw : w.length = acc.length := h w (by simp)
    have hlen : (vecAdd acc w).length = acc.length := by rw [vecAdd_length]; omega
    rw [ih (vecAdd acc w) n (by omega) (fun w' hw' => by rw [hlen]; exact h w' (by simp [hw']))]
    rw [vecAdd_getD acc w n hn hw.symm]
    ring

theorem vecSum_length (vs : List Vec) (Dd : Nat) (hne : vs ≠ [])
    (h : ∀ w ∈ vs, w.length = Dd) : (vecSum vs).length = Dd := by
  cases vs with
  | nil => exact absurd rfl hne
  | cons v ws =>
    have hv : v.length = Dd := h v (by simp)
    show (ws.foldl vecAdd v).length = Dd
    rw [foldl_vecAdd_length ws v (fun w hw => by rw [h w (by simp [hw]), hv])]
    exact hv

theorem vecSum_getD (vs : List Vec) (Dd n : Nat) (hne : vs ≠ [])
    (h : ∀ w ∈ vs, w.length = Dd) (hn : n < Dd) :
    (vecSum vs).getD n 0 = (vs.map (fun w => w.getD n 0)).sum := by
  cases vs with
  | nil => exact absurd rfl hne
  | cons v ws =>
    have hv : v.length = Dd := h v (by simp)
    show (ws.foldl vecAdd v).getD n 0 = _
    rw [foldl_vecAdd_getD ws v n (by omega)
      (fun w hw => by rw [h w (by simp [hw]), hv]), List.map_cons, List.sum_cons]

theorem default_aggregator_ok (vs : List Vec) (Dd : Nat) (hne : vs ≠ [])
    (h : ∀ w ∈ vs, w.length = Dd) : default_aggregator vs = .ok (vecSum vs) := by
  cases vs with
  | nil => exact absurd rfl hne
  | cons v ws =>
    show (if ws.all (fun w => w.length == v.length) then Except.ok (ws.foldl vecAdd v)
      else Except.error "operands could not be broadcast together") = Except.ok (vecSum (v :: ws))
    rw [if_pos]
    · rfl
    · rw [List.all_eq_true]
      intro w hw
      have : w.length = Dd := h w (by simp [hw])
      have hv : v.length = Dd := h v (by simp)
      simp [this, hv]

/-! ### Store / aggregation lemmas -/

theorem filterMap_map_all_some {α β γ : Type} (l : List α) (h : α → β) (g : β → Option γ)
    (f : α → γ) (hh : ∀ x ∈ l, g (h x) = some (f x)) : (l.map h).filterMap g = l.map f := by
  induction l with
  | nil => rfl
  | cons x xs ih =>
    rw [List.map_cons, List.filterMap_cons, hh x (by simp), List.map_cons,
      ih (fun y hy => hh y (by simp [hy]))]

theorem collectFine_ok (fineL : List (String × Vec)) (lvl : String) (iteration : Nat)
    (f : String → Vec) :
    ∀ (pids : List String) (acc : List Vec),
      (∀ pid ∈ pids, alookup fineL (fineId pid iteration) = some (f pid)) →
      collectFine fineL lvl (pids.map (fun pid => fineId pid iteration)) acc =
        .ok (acc ++ pids.map f) := by
  intro pids
  induction pids with
  | nil => intro acc _; simp [collectFine]
  | cons p ps ih =>
    intro acc h
    rw [List.map_cons]
    simp only [collectFine, h p (List.mem_cons_self p ps)]
    rw [ih (acc ++ [f p]) (fun pid hp => h pid (List.mem_cons_of_mem p hp))]
    simp

theorem add_coarse_level_singleton_ok (m : MSE) (cid : String) (iteration Dd : Nat)
    (pids : List String) (f : String → Vec) (fineL : List (String × Vec))
    (hfl : alookup m.levels "fine" = some fineL)
    (hcomm : alookup m.levels "community" = none)
    (hne : pids ≠ [])
    (hget : ∀ pid ∈ pids, alookup fineL (fineId pid iteration) = some (f pid))
    (hlen : ∀ pid ∈ pids, (f pid).length = Dd) :
    m.add_coarse_level "community" "fine" [(cid, pids.map (fun pid => fineId pid iteration))] =
      .ok ⟨dictSet m.levels "community" [(cid, vecSum (pids.map f))]⟩ := by
  have hmapne : pids.map f ≠ [] := fun hmap => hne (List.map_eq_nil_iff.mp hmap)
  have hmaplen : ∀ w ∈ pids.map f, w.length = Dd := by
    intro w hw
    obtain ⟨pid, hpid, rfl⟩ := List.mem_map.mp hw
    exact hlen pid hpid
  unfold MSE.add_coarse_level
  rw [if_neg (by simp [hfl]), if_neg (by simp [hcomm]), hfl]
  simp only [Option.getD_some, groupFold,
    collectFine_ok fineL "fine" iteration f pids [] hget, List.nil_append,
    default_aggregator_ok (pids.map f) Dd hmapne hmaplen]
  have hd : dictSet ([] : List (String × Vec)) cid (vecSum (pids.map f)) =
      [(cid, vecSum (pids.map f))] := by
    simp [dictSet, alookup]
  rw [hd]

theorem aggregate_ok (m : Mgr) (iteration Dd : Nat) (pids : List String) (f : String → Vec)
    (hne : pids ≠ [])
    (hget : ∀ pid ∈ pids,
      m.embeddings.get_embedding "fine" (fineId pid iteration) = some (f pid))
    (hlen : ∀ pid ∈ pids, (f pid).length = Dd) :
    ∃ m', m.aggregate_to_community iteration pids = .ok m' ∧
      m'.embeddings.get_embedding "community" (communityId iteration) =
        some (vecSum (pids.map f)) ∧
      (∀ id, m'.embeddings.get_embedding "fine" id = m.embeddings.get_embedding "fine" id) ∧
      m'.iteration_history = m.iteration_history := by
  have hmapne : pids.map f ≠ [] := fun hmap => hne (List.map_eq_nil_iff.mp hmap)
  have hmaplen : ∀ w ∈ pids.map f, w.length = Dd := by
    intro w hw
    obtain ⟨pid, hpid, rfl⟩ := List.mem_map.mp hw
    exact hlen pid hpid
  obtain ⟨p0, ps, rfl⟩ := List.exists_cons_of_ne_nil hne
  have h0 := hget p0 (by simp)
  cases hfl : alookup m.embeddings.levels "fine" with
  | none =>
    rw [MSE.get_embedding, hfl] at h0
    simp at h0
  | some fineL =>
  have hgetL : ∀ pid ∈ p0 :: ps, alookup fineL (fineId pid iteration) = some (f pid) := by
    intro pid hpid
    have hg := hget pid hpid
    rw [MSE.get_embedding, hfl] at hg
    simpa using hg
  unfold Mgr.aggregate_to_community
  cases hcomm : alookup m.embeddings.levels "community" with
  | none =>
    rw [if_pos (by simp [hcomm])]
    rw [add_coarse_level_singleton_ok m.embeddings (communityId iteration) iteration Dd
      (p0 :: ps) f fineL hfl hcomm (by simp) hgetL hlen]
    refine ⟨_, rfl, ?_, ?_, rfl⟩
    · show (alookup (dictSet m.embeddings.levels "community"
        [(communityId iteration, vecSum ((p0 :: ps).map f))]) "community").bind
          (fun L => alookup L (communityId iteration)) = _
      rw [alookup_dictSet_self]
      simp [alookup]
    · intro id
      show (alookup (dictSet m.embeddings.levels "community"
        [(communityId iteration, vecSum ((p0 :: ps).map f))]) "fine").bind
          (fun L => alookup L id) = _
      rw [alookup_dictSet_ne _ _ _ _ (by decide)]
      rfl
  | some comm =>
    rw [if_neg (by simp [hcomm])]
    have hvec : ((p0 :: ps).map (fun pid => fineId pid iteration)).filterMap
        (fun fid => m.embeddings.get_embedding "fine" fid) = (p0 :: ps).map f :=
      filterMap_map_all_some (p0 :: ps) (fun pid => fineId pid iteration)
        (fun fid => m.embeddings.get_embedding "fine" fid) f hget
    simp only [hvec]
    rw [if_neg (by simp), default_aggregator_ok ((p0 :: ps).map f) Dd hmapne hmaplen]
    refine ⟨_, rfl, ?_, ?_, rfl⟩
    · show (alookup (dictSet m.embeddings.levels "community"
        (dictSet ((some comm).getD []) (communityId iteration)
          (vecSum ((p0 :: ps).map f)))) "community").bind
          (fun L => alookup L (communityId iteration)) = _
      rw [alookup_dictSet_self]
      simp [alookup_dictSet_self]
    · intro id
      show (alookup (dictSet m.embeddings.levels "community"
        (dictSet ((some comm).getD []) (communityId iteration)
          (vecSum ((p0 :: ps).map f)))) "fine").bind
          (fun L => alookup L id) = _
      rw [alookup_dictSet_ne _ _ _ _ (by decide)]
      rfl

/-! ### Claim C3 -/

/-- C3 (confirmed): after `aggregate_to_community` for a round, the
community-level vector of that round is exactly `vecSum` of that
round's fine-level vectors — the elementwise sum (each coordinate below
the shared dimension D is the sum of the corresponding coordinates,
exact rational arithmetic, not an average) — both when the community
level is first created (`add_coarse_level` branch) and when a later
round extends it (direct-assignment branch). -/
theorem C3_aggregate_community_sum (m : Mgr) (iteration Dd : Nat) (pids : List String)
    (f : String → Vec) (hne : pids ≠ [])
    (hget : ∀ pid ∈ pids,
      m.embeddings.get_embedding "fine" (fineId pid iteration) = some (f pid))
    (hlen : ∀ pid ∈ pids, (f pid).length = Dd) :
    ∃ m', m.aggregate_to_community iteration pids = .ok m' ∧
      m'.embeddings.get_embedding "community" (communityId iteration) =
        some (vecSum (pids.map f)) ∧
      (vecSum (pids.map f)).length = Dd ∧
      (∀ n, n < Dd →
        (vecSum (pids.map f)).getD n 0 = ((pids.map f).map (fun w => w.getD n 0)).sum) := by
  obtain ⟨m', h1, h2, _, _⟩ := aggregate_ok m iteration Dd pids f hne hget hlen
  have hmapne : pids.map f ≠ [] := fun hmap => hne (List.map_eq_nil_iff.mp hmap)
  have hmaplen : ∀ w ∈ pids.map f, w.length = Dd := by
    intro w hw
    obtain ⟨pid, hpid, rfl⟩ := List.mem_map.mp hw
    exact hlen pid hpid
  exact ⟨m', h1, h2, vecSum_length _ Dd hmapne hmaplen,
    fun n hn => vecSum_getD _ Dd n hmapne hmaplen hn⟩

/-- Witness for C3 on a concrete two-vector round. -/
theorem C3_aggregate_community_sum_witness :
    (∀ pid ∈ (["a", "b"] : List String),
      mgrC4.embeddings.get_embedding "fine" (fineId pid 1) =
        some (if pid = "a" then ([1, 0] : Vec) else [-1, 0])) ∧
    (∃ m', mgrC4.aggregate_to_community 1 ["a", "b"] = .ok m' ∧
      m'.embeddings.get_embedding "community" (communityId 1) =
        some (vecSum ((["a", "b"] : List String).map
          (fun pid => if pid = "a" then ([1, 0] : Vec) else [-1, 0]))) ∧
      (vecSum ((["a", "b"] : List String).map
          (fun pid => if pid = "a" then ([1, 0] : Vec) else [-1, 0]))).length = 2 ∧
      (∀ n, n < 2 →
        (vecSum ((["a", "b"] : List String).map
          (fun pid => if pid = "a" then ([1, 0] : Vec) else [-1, 0]))).getD n 0 =
        (((["a", "b"] : List String).map
          (fun pid => if pid = "a" then ([1, 0] : Vec) else [-1, 0])).map
            (fun w => w.getD n 0)).sum)) :=
  ⟨by decide,
   C3_aggregate_community_sum mgrC4 1 2 ["a", "b"]
     (fun pid => if pid = "a" then ([1, 0] : Vec) else [-1, 0])
     (by decide) (by decide) (by decide)⟩

/-! ### `add_pony_response` characterisation -/

theorem add_pony_response_ok (m : Mgr) (pid : String) (t : Nat) (r : String) (v : Vec)
    (hfresh : m.embeddings.get_embedding "fine" (fineId pid t) = none) :
    ∃ m', m.add_pony_response pid t r v = .ok m' ∧
      (∀ id, m'.embeddings.get_embedding "fine" id =
        if id = fineId pid t then some v else m.embeddings.get_embedding "fine" id) ∧
      (∀ lvl, lvl ≠ "fine" →
        alookup m'.embeddings.levels lvl = alookup m.embeddings.levels lvl) := by
  have hnone : alookup ((alookup m.embeddings.levels "fine").getD []) (fineId pid t) = none := by
    cases halb : alookup m.embeddings.levels "fine" with
    | none => rfl
    | some L =>
      rw [MSE.get_embedding, halb] at hfresh
      simpa using hfresh
  refine ⟨⟨⟨dictSet m.embeddings.levels "fine"
      (((alookup m.embeddings.levels "fine").getD []) ++ [(fineId pid t, v)])⟩,
      dictSet m.iteration_history t
        ((alookup m.iteration_history t).getD [] ++ [⟨pid, fineId pid t, r⟩])⟩, ?_, ?_, ?_⟩
  · simp only [Mgr.add_pony_response, MSE.add_embedding]
    rw [if_neg (by simp [hnone])]
  · intro id
    show (alookup (dictSet m.embeddings.levels "fine"
        (((alookup m.embeddings.levels "fine").getD []) ++ [(fineId pid t, v)])) "fine").bind
        (fun L => alookup L id) = _
    rw [alookup_dictSet_self]
    show alookup (((alookup m.embeddings.levels "fine").getD []) ++ [(fineId pid t, v)]) id = _
    rw [alookup_append]
    by_cases hid : id = fineId pid t
    · subst hid
      rw [hnone, if_pos rfl]
      simp [alookup]
    · rw [if_neg hid]
      have h2 : alookup [(fineId pid t, v)] id = none := by simp [alookup, hid]
      rw [h2]
      cases halb : alookup m.embeddings.levels "fine" with
      | none => simp [MSE.get_embedding, halb, alookup]
      | some L => simp [MSE.get_embedding, halb]
  · intro lvl hlvl
    show alookup (dictSet m.embeddings.levels "fine"
      (((alookup m.embeddings.levels "fine").getD []) ++ [(fineId pid t, v)])) lvl = _
    exact alookup_dictSet_ne _ _ _ _ hlvl

theorem add_pony_response_dup (m : Mgr) (pid : String) (t : Nat) (r : String) (v : Vec)
    (hdup : (m.embeddings.get_embedding "fine" (fineId pid t)).isSome) :
    m.add_pony_response pid t r v =
      .error ("Embedding ID " ++ fineId pid t ++ " already exists in level " ++ "fine") := by
  have hsome : (alookup ((alookup m.embeddings.levels "fine").getD [])
      (fineId pid t)).isSome := by
    cases halb : alookup m.embeddings.levels "fine" with
    | none => rw [MSE.get_embedding, halb] at hdup; simp at hdup
    | some L =>
      rw [MSE.get_embedding, halb] at hdup
      simpa using hdup
  simp only [Mgr.add_pony_response, MSE.add_embedding]
  rw [if_pos hsome]

/-! ### `storeRound` characterisation -/

theorem storeRound_ok (t : Nat) :
    ∀ (es : List (Nat × String × Vec)) (m : Mgr),
      (es.map (fun e => e.1)).Nodup →
      (∀ e ∈ es, m.embeddings.get_embedding "fine" (fineId (ponyId e.1) t) = none) →
      ∃ m', storeRound t es m = .ok m' ∧
        (∀ e ∈ es,
          m'.embeddings.get_embedding "fine" (fineId (ponyId e.1) t) = some e.2.2) ∧
        (∀ id, (∀ e ∈ es, id ≠ fineId (ponyId e.1) t) →
          m'.embeddings.get_embedding "fine" id = m.embeddings.get_embedding "fine" id) ∧
        (∀ lvl, lvl ≠ "fine" →
          alookup m'.embeddings.levels lvl = alookup m.embeddings.levels lvl) := by
  intro es
  induction es with
  | nil =>
    intro m _ _
    exact ⟨m, rfl, by simp, fun id _ => rfl, fun lvl _ => rfl⟩
  | cons e es ih =>
    intro m hnodup hfresh
    rw [List.map_cons, List.nodup_cons] at hnodup
    obtain ⟨hnotin, hnodup'⟩ := hnodup
    obtain ⟨m₁, hm₁, hget₁, hlvl₁⟩ :=
      add_pony_response_ok m (ponyId e.1) t e.2.1 e.2.2 (hfresh e (by simp))
    have hfresh' : ∀ e' ∈ es,
        m₁.embeddings.get_embedding "fine" (fineId (ponyId e'.1) t) = none := by
      intro e' he'
      rw [hget₁]
      have hne : e'.1 ≠ e.1 := by
        intro hc
        exact hnotin (by rw [← hc]; exact List.mem_map_of_mem (fun x => x.1) he')
      rw [if_neg (fineId_ponyId_ne (fun hc => hne hc.1))]
      exact hfresh e' (by simp [he'])
    obtain ⟨m', hm', ha, hb, hc⟩ := ih m₁ hnodup' hfresh'
    refine ⟨m', ?_, ?_, ?_, ?_⟩
    · show storeRound t (e :: es) m = .ok m'
      simp only [storeRound, hm₁]
      exact hm'
    · intro e' he'
      rcases List.mem_cons.mp he' with he' | he'
      · subst he'
        have hALL : ∀ e'' ∈ es, fineId (ponyId e'.1) t ≠ fineId (ponyId e''.1) t := by
          intro e'' he''
          have hne : e''.1 ≠ e'.1 := by
            intro hc
            exact hnotin (by rw [← hc]; exact List.mem_map_of_mem (fun x => x.1) he'')
          exact fineId_ponyId_ne (fun hc => hne hc.1.symm)
        rw [hb _ hALL, hget₁, if_pos rfl]
      · exact ha e' he'
    · intro id hid
      rw [hb id (fun e'' he'' => hid e'' (by simp [he''])), hget₁,
        if_neg (hid e (by simp))]
    · intro lvl hlvl
      rw [hc lvl hlvl, hlvl₁ lvl hlvl]

theorem getD_map_range {α : Type} (N i : Nat) (h : i < N) (g : Nat → α) (d : α) :
    ((List.range N).map g).getD i d = g i := by
  rw [List.getD_eq_getElem?_getD, List.getElem?_map, List.getElem?_range h]
  rfl

theorem storeRound_range_ok (t N : Nat) (NP : List String) (EM : List Vec) (m : Mgr)
    (hfresh : ∀ i, m.embeddings.get_embedding "fine" (fineId (ponyId i) t) = none) :
    ∃ m₂, storeRound t
        ((List.range N).map (fun i => (i, NP.getD i "", EM.getD i []))) m = .ok m₂ ∧
      (∀ i, i < N →
        m₂.embeddings.get_embedding "fine" (fineId (ponyId i) t) = some (EM.getD i [])) ∧
      (∀ id, (∀ i, i < N → id ≠ fineId (ponyId i) t) →
        m₂.embeddings.get_embedding "fine" id = m.embeddings.get_embedding "fine" id) ∧
      (∀ lvl, lvl ≠ "fine" →
        alookup m₂.embeddings.levels lvl = alookup m.embeddings.levels lvl) := by
  have hnodup : (((List.range N).map (fun i => (i, NP.getD i "", EM.getD i []))).map
      (fun e => e.1)).Nodup := by
    rw [List.map_map]
    have : ((fun (e : Nat × String × Vec) => e.1) ∘
        (fun i => (i, NP.getD i "", EM.getD i []))) = id := rfl
    rw [this, List.map_id]
    exact List.nodup_range N
  obtain ⟨m₂, h1, h2, h3, h4⟩ := storeRound_ok t
    ((List.range N).map (fun i => (i, NP.getD i "", EM.getD i []))) m hnodup
    (by intro e he; exact hfresh e.1)
  refine ⟨m₂, h1, ?_, ?_, h4⟩
  · intro i hi
    exact h2 (i, NP.getD i "", EM.getD i [])
      (List.mem_map_of_mem _ (List.mem_range.mpr hi))
  · intro id hid
    refine h3 id ?_
    intro e he
    obtain ⟨i, hi, rfl⟩ := List.mem_map.mp he
    exact hid i (List.mem_range.mp hi)

/-! ### Orchestrator round lemmas -/

theorem embAll_getD_length (cfg : SwarmCfg) (Dd : Nat)
    (hD : ∀ i s, (cfg.emb i s).length = Dd) (texts : List String) (i : Nat)
    (hi : i < cfg.num_ponies) : ((embAll cfg texts).getD i []).length = Dd := by
  unfold embAll
  rw [getD_map_range cfg.num_ponies i hi]
  exact hD i _

theorem rsaRound_ok (cfg : SwarmCfg) (query : String) (K Dd t : Nat)
    (hN : 1 ≤ cfg.num_ponies) (hK : K ≤ cfg.num_ponies)
    (hD : ∀ i s, (cfg.emb i s).length = Dd)
    (pop : List String) (m : Mgr) (hist : List IterationRecord)
    (hfresh : ∀ i, m.embeddings.get_embedding "fine" (fineId (ponyId i) t) = none) :
    ∃ pop' m',
      rsaRound cfg query K (pop, m, hist) t =
        .ok (pop', m', hist ++ [⟨t, pop', m'.get_diversity_metric t⟩]) ∧
      pop'.length = cfg.num_ponies ∧
      (∀ id, (m.embeddings.get_embedding "fine" id).isSome →
        (m'.embeddings.get_embedding "fine" id).isSome) ∧
      (∀ t' i, t' ≠ t →
        m.embeddings.get_embedding "fine" (fineId (ponyId i) t') = none →
        m'.embeddings.get_embedding "fine" (fineId (ponyId i) t') = none) := by
  obtain ⟨m₂, hstore, hg2, hun2, _⟩ := storeRound_range_ok t cfg.num_ponies
    (genAll cfg (roundPrompts cfg query K t pop))
    (embAll cfg (genAll cfg (roundPrompts cfg query K t pop))) m hfresh
  obtain ⟨m₃, haggr, _, hfineun, _⟩ := aggregate_ok m₂ t Dd
    ((List.range cfg.num_ponies).map ponyId)
    (fun pid => (m₂.embeddings.get_embedding "fine" (fineId pid t)).getD [])
    (by
      intro hmap
      rw [List.map_eq_nil_iff] at hmap
      have : cfg.num_ponies = 0 := by
        by_contra hc
        have := List.length_range cfg.num_ponies
        rw [hmap] at this
        simp at this
        omega
      omega)
    (by
      intro pid hpid
      obtain ⟨i, hi, rfl⟩ := List.mem_map.mp hpid
      have hi' := List.mem_range.mp hi
      rw [hg2 i hi']
      simp [hg2 i hi'])
    (by
      intro pid hpid
      obtain ⟨i, hi, rfl⟩ := List.mem_map.mp hpid
      have hi' := List.mem_range.mp hi
      show ((m₂.embeddings.get_embedding "fine" (fineId (ponyId i) t)).getD []).length = Dd
      rw [hg2 i hi']
      simp only [Option.getD_some]
      exact embAll_getD_length cfg Dd hD _ i hi')
  refine ⟨genAll cfg (roundPrompts cfg query K t pop), m₃, ?_, ?_, ?_, ?_⟩
  · simp only [rsaRound]
    rw [if_neg (by omega)]
    simp only [hstore, haggr]
  · simp [genAll]
  · intro id hid
    have hidnk : ∀ i, i < cfg.num_ponies → id ≠ fineId (ponyId i) t := by
      intro i hi heq
      rw [heq, hfresh i] at hid
      simp at hid
    rw [hfineun id, hun2 id hidnk]
    exact hid
  · intro t' i ht' hnone
    have hidnk : ∀ i', i' < cfg.num_ponies →
        fineId (ponyId i) t' ≠ fineId (ponyId i') t :=
      fun i' _ => fineId_ponyId_ne (fun hc => ht' hc.2)
    rw [hfineun _, hun2 _ hidnk]
    exact hnone

theorem runRounds_ok (cfg : SwarmCfg) (query : String) (K Dd : Nat)
    (hN : 1 ≤ cfg.num_ponies) (hK : K ≤ cfg.num_ponies)
    (hD : ∀ i s, (cfg.emb i s).length = Dd) :
    ∀ (ts : List Nat) (pop : List String) (m : Mgr) (hist : List IterationRecord),
      ts.Nodup →
      (∀ t' ∈ ts, ∀ i, m.embeddings.get_embedding "fine" (fineId (ponyId i) t') = none) →
      ∃ pop' m' recs,
        runRounds cfg query K ts (pop, m, hist) = .ok (pop', m', hist ++ recs) ∧
        recs.map (fun r => r.iteration) = ts ∧
        (∀ r ∈ recs, r.population.length = cfg.num_ponies) ∧
        (∀ id, (m.embeddings.get_embedding "fine" id).isSome →
          (m'.embeddings.get_embedding "fine" id).isSome) := by
  intro ts
  induction ts with
  | nil =>
    intro pop m hist _ _
    exact ⟨pop, m, [], by simp [runRounds], rfl, by simp, fun id h => h⟩
  | cons t ts ih =>
    intro pop m hist hnodup hfresh
    rw [List.nodup_cons] at hnodup
    obtain ⟨m₁pop, m₁, hround, hlen₁, hsome₁, hnone₁⟩ :=
      rsaRound_ok cfg query K Dd t hN hK hD pop m hist (fun i => hfresh t (by simp) i)
    have hfresh' : ∀ t' ∈ ts, ∀ i,
        m₁.embeddings.get_embedding "fine" (fineId (ponyId i) t') = none := by
      intro t' ht' i
      have ht : t' ≠ t := fun hc => hnodup.1 (hc ▸ ht')
      exact hnone₁ t' i ht (hfresh t' (by simp [ht']) i)
    obtain ⟨pop', m', recs, hrun, hmapiter, hpoplen, hsome'⟩ :=
      ih m₁pop m₁ (hist ++ [⟨t, m₁pop, m₁.get_diversity_metric t⟩]) hnodup.2 hfresh'
    refine ⟨pop', m', ⟨t, m₁pop, m₁.get_diversity_metric t⟩ :: recs, ?_, ?_, ?_, ?_⟩
    · simp only [runRounds, hround]
      rw [hrun, List.append_assoc]
      rfl
    · simp [hmapiter]
    · intro r hr
      rcases List.mem_cons.mp hr with hr | hr
      · subst hr
        exact hlen₁
      · exact hpoplen r hr
    · intro id hid
      exact hsome' id (hsome₁ id hid)

theorem rsa_ok (cfg : SwarmCfg) (mgr : Mgr) (us : UserState) (query : String) (K T Dd : Nat)
    (hN : 1 ≤ cfg.num_ponies) (hK : K ≤ cfg.num_ponies) (hT : 1 ≤ T)
    (hD : ∀ i s, (cfg.emb i s).length = Dd)
    (hc : check_all_ponies_for_crisis cfg.num_ponies query us = none)
    (hfresh : ∀ i t, 1 ≤ t →
      mgr.embeddings.get_embedding "fine" (fineId (ponyId i) t) = none) :
    ∃ res mgr', rsa cfg mgr us query K T = .ok (res, mgr') ∧
      res.is_crisis = false ∧
      res.iterations.length = T ∧
      res.iterations.map (fun r => r.iteration) = List.range' 1 T ∧
      (∀ r ∈ res.iterations, r.population.length = cfg.num_ponies) ∧
      (∀ i, i < cfg.num_ponies →
        (mgr'.embeddings.get_embedding "fine" (fineId (ponyId i) 1)).isSome) := by
  obtain ⟨m₂, hstore, hg2, hun2, _⟩ := storeRound_range_ok 1 cfg.num_ponies
    (initialPopulation cfg query) (embAll cfg (initialPopulation cfg query)) mgr
    (fun i => hfresh i 1 (by omega))
  obtain ⟨m₃, haggr, _, hfineun, _⟩ := aggregate_ok m₂ 1 Dd
    ((List.range cfg.num_ponies).map ponyId)
    (fun pid => (m₂.embeddings.get_embedding "fine" (fineId pid 1)).getD [])
    (by
      intro hmap
      rw [List.map_eq_nil_iff] at hmap
      have : cfg.num_ponies = 0 := by
        by_contra hc'
        have := List.length_range cfg.num_ponies
        rw [hmap] at this
        simp at this
        omega
      omega)
    (by
      intro pid hpid
      obtain ⟨i, hi, rfl⟩ := List.mem_map.mp hpid
      have hi' := List.mem_range.mp hi
      rw [hg2 i hi']
      simp [hg2 i hi'])
    (by
      intro pid hpid
      obtain ⟨i, hi, rfl⟩ := List.mem_map.mp hpid
      have hi' := List.mem_range.mp hi
      show ((m₂.embeddings.get_embedding "fine" (fineId (ponyId i) 1)).getD []).length = Dd
      rw [hg2 i hi']
      simp only [Option.getD_some]
      exact embAll_getD_length cfg Dd hD _ i hi')
  have hfresh₃ : ∀ t' ∈ List.range' 2 (T - 1), ∀ i,
      m₃.embeddings.get_embedding "fine" (fineId (ponyId i) t') = none := by
    intro t' ht' i
    have ht2 : 2 ≤ t' := by
      obtain ⟨k, hk, hteq⟩ := List.mem_range'.mp ht'
      omega
    have hne1 : ∀ i', i' < cfg.num_ponies →
        fineId (ponyId i) t' ≠ fineId (ponyId i') 1 :=
      fun i' _ => fineId_ponyId_ne (fun hcc => by omega)
    rw [hfineun _, hun2 _ hne1]
    exact hfresh i t' (by omega)
  obtain ⟨pop', m', recs, hrun, hmapiter, hpoplen, hsome'⟩ :=
    runRounds_ok cfg query K Dd hN hK hD (List.range' 2 (T - 1))
      (initialPopulation cfg query) m₃
      [⟨1, initialPopulation cfg query, m₃.get_diversity_metric 1⟩]
      (List.nodup_range' 2 (T - 1)) hfresh₃
  have hiterALL : (⟨1, initialPopulation cfg query, m₃.get_diversity_metric 1⟩ :: recs).map
      (fun r => r.iteration) = List.range' 1 T := by
    have hrange : List.range' 1 T = 1 :: List.range' 2 (T - 1) := by
      cases T with
      | zero => omega
      | succ n => rfl
    rw [hrange]
    simp [hmapiter]
  refine ⟨⟨pop'.getD (cfg.choose % cfg.num_ponies) "", false,
    ⟨1, initialPopulation cfg query, m₃.get_diversity_metric 1⟩ :: recs, pop',
    cfg.num_ponies * T⟩, m', ?_, rfl, ?_, hiterALL, ?_, ?_⟩
  · simp only [rsa, hc]
    simp only [hstore, haggr, hrun]
    rfl
  · have := congrArg List.length hiterALL
    simpa using this
  · intro r hr
    rcases List.mem_cons.mp hr with hr | hr
    · subst hr
      simp [initialPopulation]
    · exact hpoplen r hr
  · intro i hi
    refine hsome' _ ?_
    rw [hfineun _, hg2 i hi]
    rfl

/-! ### Claim C2 -/

/-- C2 (confirmed): for every valid configuration with 1 ≤ K ≤ N,
T ≥ 1, a fixed embedding dimension, and a non-crisis query, a fresh
`recursive_self_aggregation` call succeeds and returns exactly T
iteration records, whose round numbers are 1..T in order, and every
record's population has exactly N candidate strings. -/
theorem C2_iteration_records (cfg : SwarmCfg) (us : UserState) (query : String)
    (K T Dd : Nat) (hK1 : 1 ≤ K) (hKN : K ≤ cfg.num_ponies) (hT : 1 ≤ T)
    (hD : ∀ i s, (cfg.emb i s).length = Dd)
    (hc : check_all_ponies_for_crisis cfg.num_ponies query us = none) :
    ∃ res mgr', rsa cfg Mgr.empty us query K T = .ok (res, mgr') ∧
      res.is_crisis = false ∧
      res.iterations.length = T ∧
      res.iterations.map (fun r => r.iteration) = List.range' 1 T ∧
      (∀ r ∈ res.iterations, r.population.length = cfg.num_ponies) := by
  obtain ⟨res, mgr', h1, h2, h3, h4, h5, _⟩ :=
    rsa_ok cfg Mgr.empty us query K T Dd (by omega) hKN hT hD hc (fun i t _ => rfl)
  exact ⟨res, mgr', h1, h2, h3, h4, h5⟩

/-- Witness for C2 at a concrete 1-pony swarm with K = T = 1. -/
theorem C2_iteration_records_witness :
    ((1 : Nat) ≤ 1 ∧ 1 ≤ cfgW1.num_ponies ∧
      (∀ i s, (cfgW1.emb i s).length = 1) ∧
      check_all_ponies_for_crisis cfgW1.num_ponies "hello" defaultUserState = none) ∧
    (∃ res mgr', rsa cfgW1 Mgr.empty defaultUserState "hello" 1 1 = .ok (res, mgr') ∧
      res.is_crisis = false ∧
      res.iterations.length = 1 ∧
      res.iterations.map (fun r => r.iteration) = List.range' 1 1 ∧
      (∀ r ∈ res.iterations, r.population.length = cfgW1.num_ponies)) :=
  ⟨⟨le_refl 1, by decide, fun i s => rfl, by decide⟩,
   C2_iteration_records cfgW1 defaultUserState "hello" 1 1 1 (le_refl 1) (by decide)
     (le_refl 1) (fun i s => rfl) (by decide)⟩

/-! ### Claim C9 -/

/-- C9 (confirmed): the manager persists on the instance across calls;
after a first non-crisis `recursive_self_aggregation` call completes,
the fine-level key `pony_0_t1` from that call is still present, and any
subsequent non-crisis call (whatever its K and T) raises ValueError
while recording its first round-1 embedding, because `add_embedding`
rejects the duplicate key instead of overwriting it. -/
theorem C9_second_call_duplicate_error (cfg : SwarmCfg) (us us2 : UserState)
    (q q2 : String) (K T Dd : Nat)
    (hK1 : 1 ≤ K) (hKN : K ≤ cfg.num_ponies) (hT : 1 ≤ T)
    (hD : ∀ i s, (cfg.emb i s).length = Dd)
    (hc : check_all_ponies_for_crisis cfg.num_ponies q us = none)
    (hc2 : check_all_ponies_for_crisis cfg.num_ponies q2 us2 = none) :
    ∃ res mgr1, rsa cfg Mgr.empty us q K T = .ok (res, mgr1) ∧
      res.is_crisis = false ∧
      fineId (ponyId 0) 1 = "pony_0_t1" ∧
      (mgr1.embeddings.get_embedding "fine" "pony_0_t1").isSome ∧
      ∀ K' T', rsa cfg mgr1 us2 q2 K' T' =
        .error ("Embedding ID " ++ "pony_0_t1" ++ " already exists in level " ++ "fine") := by
  obtain ⟨res, mgr1, h1, h2, _, _, _, hkeys⟩ :=
    rsa_ok cfg Mgr.empty us q K T Dd (by omega) hKN hT hD hc (fun i t _ => rfl)
  have hkey0 : (mgr1.embeddings.get_embedding "fine" (fineId (ponyId 0) 1)).isSome :=
    hkeys 0 (by omega)
  have hfid : fineId (ponyId 0) 1 = "pony_0_t1" := rfl
  refine ⟨res, mgr1, h1, h2, hfid, by rw [← hfid]; exact hkey0, ?_⟩
  intro K' T'
  have hdup := add_pony_response_dup mgr1 (ponyId 0) 1
    ((initialPopulation cfg q2).getD 0 "")
    ((embAll cfg (initialPopulation cfg q2)).getD 0 []) hkey0
  simp only [rsa, hc2]
  have hrange : List.range cfg.num_ponies = 0 :: List.range' 1 (cfg.num_ponies - 1) := by
    rw [List.range_eq_range']
    have : cfg.num_ponies = (cfg.num_ponies - 1) + 1 := by omega
    rw [this]
    rfl
  rw [hrange]
  simp only [List.map_cons, storeRound, hdup]
  rw [hfid]

/-- Witness for C9 at a concrete 1-pony swarm. -/
theorem C9_second_call_duplicate_error_witness :
    (check_all_ponies_for_crisis cfgW1.num_ponies "hello" defaultUserState = none ∧
      check_all_ponies_for_crisis cfgW1.num_ponies "hi" defaultUserState = none) ∧
    (∃ res mgr1, rsa cfgW1 Mgr.empty defaultUserState "hello" 1 1 = .ok (res, mgr1) ∧
      res.is_crisis = false ∧
      fineId (ponyId 0) 1 = "pony_0_t1" ∧
      (mgr1.embeddings.get_embedding "fine" "pony_0_t1").isSome ∧
      ∀ K' T', rsa cfgW1 mgr1 defaultUserState "hi" K' T' =
        .error ("Embedding ID " ++ "pony_0_t1" ++ " already exists in level " ++ "fine")) :=
  ⟨⟨by decide, by decide⟩,
   C9_second_call_duplicate_error cfgW1 defaultUserState defaultUserState "hello" "hi" 1 1 1
     (le_refl 1) (by decide) (le_refl 1) (fun i s => rfl) (by decide) (by decide)⟩

/-! ### Diversity-metric analysis (claim C4) -/

theorem sumSqQ_nonneg (v : Vec) : 0 ≤ sumSqQ v := by
  unfold sumSqQ
  induction v with
  | nil => simp
  | cons a l ih =>
    rw [List.map_cons, List.sum_cons]
    exact add_nonneg (mul_self_nonneg a) ih

theorem sumSqQ_cons (a : ℚ) (l : Vec) : sumSqQ (a :: l) = a * a + sumSqQ l := by
  simp [sumSqQ]

theorem dotQ_cons (a b : ℚ) (u v : Vec) : dotQ (a :: u) (b :: v) = a * b + dotQ u v := by
  simp [dotQ]

theorem cauchy_schwarz_list : ∀ (u v : Vec), (dotQ u v) ^ 2 ≤ sumSqQ u * sumSqQ v := by
  intro u
  induction u with
  | nil =>
    intro v
    simp [dotQ, sumSqQ]
  | cons a u' ih =>
    intro v
    cases v with
    | nil =>
      simp [dotQ, sumSqQ]
    | cons b v' =>
      rw [dotQ_cons, sumSqQ_cons, sumSqQ_cons]
      have hd := ih v'
      have hsu := sumSqQ_nonneg u'
      have hsv := sumSqQ_nonneg v'
      rcases eq_or_lt_of_le hsv with hsv0 | hsvpos
      · have hd2 : dotQ u' v' ^ 2 ≤ 0 := by nlinarith [hd]
        have hz : dotQ u' v' ^ 2 = 0 := le_antisymm hd2 (sq_nonneg _)
        have hd0 : dotQ u' v' = 0 := by
          exact pow_eq_zero_iff (two_ne_zero) |>.mp hz
        rw [hd0, ← hsv0]
        nlinarith [mul_nonneg hsu (mul_self_nonneg b)]
      · nlinarith [sq_nonneg (a * sumSqQ v' - b * dotQ u' v'),
          mul_nonneg hsv (sub_nonneg.mpr hd),
          mul_nonneg (sq_nonneg b) (sub_nonneg.mpr hd), hsvpos]

theorem abs_dotQ_le (u v : Vec) :
    |((dotQ u v : ℚ) : ℝ)| ≤
      Real.sqrt ((sumSqQ u : ℚ) : ℝ) * Real.sqrt ((sumSqQ v : ℚ) : ℝ) := by
  have hcs : ((dotQ u v : ℚ) : ℝ) ^ 2 ≤ ((sumSqQ u : ℚ) : ℝ) * ((sumSqQ v : ℚ) : ℝ) := by
    exact_mod_cast cauchy_schwarz_list u v
  have hsu : (0 : ℝ) ≤ ((sumSqQ u : ℚ) : ℝ) := by exact_mod_cast sumSqQ_nonneg u
  calc |((dotQ u v : ℚ) : ℝ)| = Real.sqrt (((dotQ u v : ℚ) : ℝ) ^ 2) :=
        (Real.sqrt_sq_eq_abs _).symm
    _ ≤ Real.sqrt (((sumSqQ u : ℚ) : ℝ) * ((sumSqQ v : ℚ) : ℝ)) := Real.sqrt_le_sqrt hcs
    _ = Real.sqrt ((sumSqQ u : ℚ) : ℝ) * Real.sqrt ((sumSqQ v : ℚ) : ℝ) :=
        Real.sqrt_mul hsu _

theorem cosDist_bounds (u v : Vec) : 0 ≤ cosDist u v ∧ cosDist u v ≤ 2 := by
  have hru : (0 : ℝ) ≤ Real.sqrt ((sumSqQ u : ℚ) : ℝ) := Real.sqrt_nonneg _
  have hrv : (0 : ℝ) ≤ Real.sqrt ((sumSqQ v : ℚ) : ℝ) := Real.sqrt_nonneg _
  have hnu : 0 < normEps u := by
    unfold normEps
    positivity
  have hnv : 0 < normEps v := by
    unfold normEps
    positivity
  have hle : |((dotQ u v : ℚ) : ℝ)| ≤ normEps u * normEps v := by
    refine (abs_dotQ_le u v).trans ?_
    unfold normEps
    have he : (0 : ℝ) < 1 / 10 ^ 10 := by norm_num
    exact mul_le_mul (by linarith) (by linarith) hrv (by linarith)
  have hdenom : 0 < normEps u * normEps v := mul_pos hnu hnv
  have hq : |((dotQ u v : ℚ) : ℝ) / (normEps u * normEps v)| ≤ 1 := by
    rw [abs_div, abs_of_pos hdenom]
    exact (div_le_one hdenom).mpr hle
  have hb := abs_le.mp hq
  unfold cosDist
  constructor <;> linarith [hb.1, hb.2]

theorem pairDists_mem : ∀ (vs : List Vec) (x : ℝ), x ∈ pairDists vs →
    ∃ u v, x = cosDist u v := by
  intro vs
  induction vs with
  | nil =>
    intro x hx
    simp [pairDists] at hx
  | cons v rest ih =>
    intro x hx
    rw [pairDists, List.mem_append] at hx
    rcases hx with hx | hx
    · obtain ⟨w, _, rfl⟩ := List.mem_map.mp hx
      exact ⟨v, w, rfl⟩
    · exact ih x hx

theorem sum_div_length_bounds (l : List ℝ) (h : ∀ x ∈ l, 0 ≤ x ∧ x ≤ 2) :
    0 ≤ l.sum / (l.length : ℝ) ∧ l.sum / (l.length : ℝ) ≤ 2 := by
  cases l with
  | nil => simp
  | cons a l' =>
    have hlen : (0 : ℝ) < ((a :: l').length : ℝ) := by
      have : 0 < (a :: l').length := Nat.succ_pos _
      exact_mod_cast this
    have hsum0 : 0 ≤ (a :: l').sum := List.sum_nonneg (fun x hx => (h x hx).1)
    have hsum2 : (a :: l').sum ≤ 2 * ((a :: l').length : ℝ) := by
      have hs := List.sum_le_card_nsmul (a :: l') 2 (fun x hx => (h x hx).2)
      simpa [nsmul_eq_mul, mul_comm] using hs
    constructor
    · exact div_nonneg hsum0 (le_of_lt hlen)
    · rw [div_le_iff hlen]
      linarith

/-! ### Claim C4 -/

/-- C4 counterexample: with the two antipodal unit vectors `[1,0]` and
`[-1,0]` recorded for a round, the diversity of that round exceeds 1 —
the claimed range [0,1] is wrong. -/
theorem C4_counterexample_diversity_exceeds_one :
    1 < mgrC4.get_diversity_metric 1 := by
  have hrv : mgrC4.roundVectors 1 = [[1, 0], [-1, 0]] := rfl
  simp only [Mgr.get_diversity_metric, hrv]
  rw [if_neg (by norm_num)]
  have hpd : pairDists [[1, 0], [-1, 0]] = [cosDist [1, 0] [-1, 0]] := by
    simp [pairDists]
  rw [hpd, if_pos (by norm_num)]
  simp only [List.sum_cons, List.sum_nil, add_zero, List.length_cons, List.length_nil]
  have hd : dotQ [1, 0] [-1, 0] = -1 := by norm_num [dotQ]
  have hs1 : sumSqQ [1, 0] = 1 := by norm_num [sumSqQ]
  have hs2 : sumSqQ [-1, 0] = 1 := by norm_num [sumSqQ]
  unfold cosDist normEps
  rw [hd, hs1, hs2]
  push_cast
  rw [Real.sqrt_one]
  have hpos : (0 : ℝ) < (1 + 1 / 10 ^ 10) * (1 + 1 / 10 ^ 10) := by positivity
  have hneg : (-1 : ℝ) / ((1 + 1 / 10 ^ 10) * (1 + 1 / 10 ^ 10)) < 0 :=
    div_neg_of_neg_of_pos (by norm_num) hpos
  rw [div_one]
  linarith

/-- C4 (corrected): for every round, `get_diversity_metric` returns the
mean pairwise cosine distance (1 − cosine similarity of the
epsilon-normalised vectors) over that round's fine-level vectors, the
returned value lies in [0,2] (not [0,1]: antipodal unit vectors give a
pairwise distance close to 2), and it equals 0 whenever the round has
fewer than two vectors. -/
theorem C4_diversity_in_zero_two (m : Mgr) (iteration : Nat) :
    (0 ≤ m.get_diversity_metric iteration ∧ m.get_diversity_metric iteration ≤ 2) ∧
    ((m.roundVectors iteration).length < 2 → m.get_diversity_metric iteration = 0) := by
  simp only [Mgr.get_diversity_metric]
  by_cases h2 : (m.roundVectors iteration).length < 2
  · rw [if_pos h2]
    exact ⟨⟨le_refl 0, by norm_num⟩, fun _ => rfl⟩
  · rw [if_neg h2]
    by_cases hpd : 0 < (pairDists (m.roundVectors iteration)).length
    · rw [if_pos hpd]
      have hb : ∀ x ∈ pairDists (m.roundVectors iteration), 0 ≤ x ∧ x ≤ 2 := by
        intro x hx
        obtain ⟨u, v, rfl⟩ := pairDists_mem _ x hx
        exact cosDist_bounds u v
      exact ⟨sum_div_length_bounds _ hb, fun hlt => absurd hlt h2⟩
    · rw [if_neg hpd]
      exact ⟨⟨le_refl 0, by norm_num⟩, fun _ => rfl⟩

/-- Witness for C4 applied at the empty manager (fewer than two
vectors, diversity 0). -/
theorem C4_diversity_in_zero_two_witness :
    (Mgr.empty.roundVectors 1).length < 2 ∧
    Mgr.empty.get_diversity_metric 1 = 0 ∧
    0 ≤ Mgr.empty.get_diversity_metric 1 :=
  ⟨by decide, (C4_diversity_in_zero_two Mgr.empty 1).2 (by decide),
   (C4_diversity_in_zero_two Mgr.empty 1).1.1⟩

/-! ### Claim C7 -/

/-- C7 (confirmed): for every query, `estimate_complexity` computes its
score exactly as the spec's rule list — the four character-count
buckets, the four word-count buckets, +15 for more than 3 sentences,
−10 on any math keyword or arithmetic-pattern match, +15/+5 for the
reasoning-keyword buckets, +30/+15 for the creative-keyword buckets,
clamped to [0,100]. -/
theorem C7_estimator_matches_spec_rules (q : String) :
    estimate_complexity q = spec_estimate_complexity q := by
  simp only [estimate_complexity, spec_estimate_complexity, spec_lengthScore, spec_wordScore,
    spec_sentenceBonus, spec_mathAdjust, spec_reasoningBonus, spec_creativeBonus]
  by_cases h : mathMatchCount q > 0
  · simp only [if_pos h]
    ring_nf
  · simp only [if_neg h]
    ring_nf

/-! ### Claim C6 -/

/-- C6 counterexample: the scenario's second query scores 35, not at
least 60, and lands in the medium tier, not the complex tier. -/
theorem C6_counterexample_philosophical_query :
    estimate_complexity "Write a creative story exploring multiple philosophical themes" = 35 ∧
    ¬ (60 ≤ estimate_complexity
        "Write a creative story exploring multiple philosophical themes") ∧
    selectLevel (estimate_complexity
        "Write a creative story exploring multiple philosophical themes") ≠ "complex" ∧
    select_parameters defaultConfigs
        "Write a creative story exploring multiple philosophical themes" ≠ ⟨6, 3, 4⟩ := by
  decide

/-- C6 (corrected): "Calculate 5 + 3" scores 0 (< 20) and selects the
simple tier (2,1,2); "Write a creative story exploring multiple
philosophical themes" scores 35 (< 60, not ≥ 60) and selects the medium
tier (4,2,3), not the complex tier. -/
theorem C6_amended_scenario_scores :
    estimate_complexity "Calculate 5 + 3" < 20 ∧
    selectLevel (estimate_complexity "Calculate 5 + 3") = "simple" ∧
    select_parameters defaultConfigs "Calculate 5 + 3" = ⟨2, 1, 2⟩ ∧
    estimate_complexity "Write a creative story exploring multiple philosophical themes" = 35 ∧
    selectLevel (estimate_complexity
        "Write a creative story exploring multiple philosophical themes") = "medium" ∧
    select_parameters defaultConfigs
        "Write a creative story exploring multiple philosophical themes" = ⟨4, 2, 3⟩ := by
  decide

/-! ### Claim C5 -/

/-- C5 counterexample: `update_config` accepts params with K = 5 > N = 2
for the known tier "simple" — there is no K ≤ N validation. -/
theorem C5_counterexample_k_gt_n_accepted :
    update_config defaultConfigs "simple" ⟨2, 5, 2⟩ =
      .ok [("simple", ⟨2, 5, 2⟩), ("medium", ⟨4, 2, 3⟩), ("complex", ⟨6, 3, 4⟩)] ∧
    (5 : Nat) > 2 :=
  ⟨rfl, by omega⟩

/-- C5 (corrected): `update_config` validates only that the tier name is
known (ValueError otherwise) and accepts any params, including K > N;
a `recursive_self_aggregation` call with K > N is not rejected up
front: with T ≥ 2 it fails only at round-2 sampling (after all round-1
generation and embedding work), and with T = 1 (or T = 0) it completes
without any parameter error. -/
theorem C5_amended_no_fail_fast :
    (∀ (level : String) (params : RSAParams),
      (update_config defaultConfigs level params).isOk = true ↔
        (level = "simple" ∨ level = "medium" ∨ level = "complex")) ∧
    rsa cfgW2 Mgr.empty defaultUserState "hello" 3 2 =
      .error "Sample larger than population or is negative" ∧
    (rsa cfgW2 Mgr.empty defaultUserState "hello" 3 1).isOk = true ∧
    (rsa cfgW2 Mgr.empty defaultUserState "hello" 1 0).isOk = true := by
  refine ⟨?_, rfl, rfl, rfl⟩
  intro level params
  by_cases h1 : level = "simple"
  · simp [update_config, defaultConfigs, alookup, Except.isOk, Except.toBool, h1]
  · by_cases h2 : level = "medium"
    · simp [update_config, defaultConfigs, alookup, Except.isOk, Except.toBool, h1, h2]
    · by_cases h3 : level = "complex"
      · simp [update_config, defaultConfigs, alookup, Except.isOk, Except.toBool, h1, h2, h3]
      · simp [update_config, defaultConfigs, alookup, Except.isOk, Except.toBool, h1, h2, h3]

/-! ### Claim C8 -/

/-- C8 counterexample: on a failing backend the returned string is
`[Error] ...`-prefixed (capital E), so it is not `[error] ...`-prefixed
as the claim literally states. -/
theorem C8_counterexample_prefix_case :
    (generate_response "Pinkie Pie" "generalist" (fun _ => .error "boom") "hi" []).1 =
      "[Error] Pinkie Pie couldn\x27t generate response: boom" ∧
    startsWithChars "[error]".data
      (generate_response "Pinkie Pie" "generalist" (fun _ => .error "boom") "hi" []).1.data
      = false := by
  decide

/-- C8 (corrected): for every prompt, when the generation capability
fails (exception or timeout, modelled as `Except.error`),
`generate_response` returns the in-band string
`[Error] {name} couldn't generate response: {e}` — an `[Error] `-prefixed
string — and leaves the context buffer untouched; the model is a total
function, so no exception propagates to the orchestrator and a single
failing agent never aborts the round. -/
theorem C8_amended_error_marked_string (pony_name role prompt e : String)
    (backend : String → Except String String) (buf : List (String × String))
    (h : backend (personaPrompt pony_name role prompt) = .error e) :
    (generate_response pony_name role backend prompt buf).1 =
      "[Error] " ++ pony_name ++ " couldn\x27t generate response: " ++ e ∧
    (generate_response pony_name role backend prompt buf).2 = buf ∧
    startsWithChars "[Error] ".data
      (generate_response pony_name role backend prompt buf).1.data = true := by
  have hgen : generate_response pony_name role backend prompt buf =
      ("[Error] " ++ pony_name ++ " couldn\x27t generate response: " ++ e, buf) := by
    unfold generate_response
    rw [h]
  rw [hgen]
  refine ⟨rfl, rfl, ?_⟩
  simp only [string_data_append, List.append_assoc]
  exact startsWithChars_self_append _ _

/-- Witness for C8: the amended theorem applied to a concrete failing
backend. -/
theorem C8_amended_error_marked_string_witness :
    (generate_response "Pinkie Pie" "generalist" (fun _ => .error "boom") "hi" []).1 =
      "[Error] " ++ "Pinkie Pie" ++ " couldn\x27t generate response: " ++ "boom" ∧
    startsWithChars "[Error] ".data
      (generate_response "Pinkie Pie" "generalist" (fun _ => .error "boom") "hi" []).1.data
      = true :=
  ⟨(C8_amended_error_marked_string "Pinkie Pie" "generalist" "hi" "boom"
      (fun _ => .error "boom") [] rfl).1,
   (C8_amended_error_marked_string "Pinkie Pie" "generalist" "hi" "boom"
      (fun _ => .error "boom") [] rfl).2.2⟩

/-! ### Claim C10 -/

/-- C10 (confirmed): `single_step_aggregation` performs no crisis check:
for every query it returns is_crisis = false, its candidate list is the
K round-robin generations `gen (i % N) query`, and its response is one
further generation call on the aggregation prompt; in particular a
distress query that would short-circuit `recursive_self_aggregation`
(the crisis check fires on it) still yields is_crisis = false. -/
theorem C10_single_step_no_crisis_check (cfg : SwarmCfg) (query : String) (K : Nat)
    (us : UserState) (hN : 0 < cfg.num_ponies) :
    (single_step_aggregation cfg query K).is_crisis = false ∧
    (single_step_aggregation cfg query K).candidates =
      (List.range K).map (fun i => cfg.gen (i % cfg.num_ponies) query) ∧
    (single_step_aggregation cfg query K).response =
      cfg.gen 0 (build_aggregation_prompt query
        ((List.range K).map (fun i => cfg.gen (i % cfg.num_ponies) query)) K) ∧
    (single_step_aggregation cfg "I want to kill myself" K).is_crisis = false ∧
    check_crisis_indicators (ponyId 0) "I want to kill myself" us =
      some "[CRISIS ALERT] pony_0 detected distress signals. Escalating to support network." := by
  refine ⟨rfl, rfl, rfl, rfl, ?_⟩
  unfold check_crisis_indicators
  rw [if_pos (show (crisisKeywords.any fun kw =>
      containsSub kw.data (lowerChars ("I want to kill myself").data)) = true by decide)]
  rfl

/-- Witness for C10 at a concrete 2-pony swarm. -/
theorem C10_single_step_no_crisis_check_witness :
    0 < cfgW2.num_ponies ∧
    (single_step_aggregation cfgW2 "I want to kill myself" 4).is_crisis = false :=
  ⟨by decide,
   (C10_single_step_no_crisis_check cfgW2 "hi" 4 defaultUserState (by decide)).2.2.2.1⟩

/-! ### Claim C1 -/

/-- C1 (confirmed): if any agent's crisis check on the input query
returns an alert, `recursive_self_aggregation` returns that alert as
the entire result with is_crisis = true and iterations = [], the
manager state is untouched, the result is independent of the
generation/embedding capabilities and randomness (no generation or
embedding call can influence it), and the alert is the first agent's
alert in agent order. -/
theorem C1_crisis_short_circuit (cfg : SwarmCfg) (mgr : Mgr) (us : UserState)
    (query : String) (K T : Nat) (alert : String)
    (h : check_all_ponies_for_crisis cfg.num_ponies query us = some alert) :
    rsa cfg mgr us query K T = .ok (crisisResult alert, mgr) ∧
    (crisisResult alert).is_crisis = true ∧
    (crisisResult alert).iterations = [] ∧
    (∀ g e s c, rsa { cfg with gen := g, emb := e, sample := s, choose := c } mgr us query K T =
      .ok (crisisResult alert, mgr)) ∧
    (∃ i, i < cfg.num_ponies ∧ check_crisis_indicators (ponyId i) query us = some alert ∧
      ∀ j, j < i → check_crisis_indicators (ponyId j) query us = none) := by
  have hrsa : ∀ cfg' : SwarmCfg, cfg'.num_ponies = cfg.num_ponies →
      rsa cfg' mgr us query K T = .ok (crisisResult alert, mgr) := by
    intro cfg' hcn
    simp only [rsa, hcn, h]
  refine ⟨hrsa cfg rfl, rfl, rfl, fun g e s c => hrsa _ rfl, ?_⟩
  unfold check_all_ponies_for_crisis at h
  rw [List.range_eq_range'] at h
  obtain ⟨i, h1, h2, h3, h4⟩ := findSome?_range'_first cfg.num_ponies 0
    (fun i => check_crisis_indicators (ponyId i) query us) alert h
  exact ⟨i, by omega, h3, fun j hj => h4 j (by omega) hj⟩

/-- Witness for C1 at a 1-pony swarm and a distress query. -/
theorem C1_crisis_short_circuit_witness :
    check_all_ponies_for_crisis cfgW1.num_ponies "suicide" defaultUserState =
      some "[CRISIS ALERT] pony_0 detected distress signals. Escalating to support network." ∧
    rsa cfgW1 Mgr.empty defaultUserState "suicide" 2 3 =
      .ok (crisisResult
        "[CRISIS ALERT] pony_0 detected distress signals. Escalating to support network.",
        Mgr.empty) :=
  ⟨by decide,
   (C1_crisis_short_circuit cfgW1 Mgr.empty defaultUserState "suicide" 2 3
      "[CRISIS ALERT] pony_0 detected distress signals. Escalating to support network."
      (by decide)).1⟩

end FLOSS
